import Mathlib

/-!
Verification of the document-indexing and retrieval-augmented answering
pipeline of the `ai-doc-assistant` repository.

Text is embedded as `List Char` (ASCII semantics for case folding, digits
and word characters, matching the repository's English-text inputs).
Python floats are modelled as rationals (`ℚ`); Python `//` on non-negative
integers is `Nat` division.  Services with external effects (PDF
extraction, database commits, the LLM call) are modelled as explicit
`Except`-valued inputs to the route-handler functions, and the database
session as an explicit record threaded through them.  Several scanning
functions use an explicit fuel argument (always instantiated with the
input length, which each step strictly decreases) so that every
definition is structurally recursive and kernel-computable.
-/

/-! ## Character classes (Python `str` semantics, ASCII fragment) -/

/-- The whitespace characters recognised by Python's `str.split()` /
`str.strip()` (ASCII fragment): space, tab, newline, carriage return,
vertical tab, form feed. -/
def isPySpace (c : Char) : Bool :=
  c.toNat = 32 || c.toNat = 9 || c.toNat = 10 || c.toNat = 13 ||
  c.toNat = 11 || c.toNat = 12

/-- Python `str.lower()` on one character (ASCII fragment): uppercase
letters are shifted by 32, everything else is unchanged. -/
def lowerChar (c : Char) : Char :=
  if 65 ≤ c.toNat ∧ c.toNat ≤ 90 then Char.ofNat (c.toNat + 32) else c

/-- Python `str.lower()` (ASCII fragment). -/
def lowerStr (s : List Char) : List Char := s.map lowerChar

/-- Word characters of the regex class `\w` (ASCII fragment):
letters, digits and underscore. -/
def isWordChar (c : Char) : Bool := c.isAlphanum || c = '_'

/-! ## Python `str.split()` (split on whitespace runs, dropping empties) -/

/-- Worker for `splitWS`; `acc` holds the reversed current token. -/
def splitWSAux : List Char → List Char → List (List Char)
  | [], acc => if acc = [] then [] else [acc.reverse]
  | c :: rest, acc =>
    if isPySpace c then
      if acc = [] then splitWSAux rest [] else acc.reverse :: splitWSAux rest []
    else splitWSAux rest (c :: acc)

/-- Python `str.split()` with no separator: split on runs of whitespace,
discarding empty tokens. -/
def splitWS (s : List Char) : List (List Char) := splitWSAux s []

/-! ## Python `str.count` (non-overlapping substring occurrences) -/

/-- Worker for `pyCount` over a fuel argument bounding the scan length. -/
def pyCountAux : Nat → List Char → List Char → Nat
  | 0, _, _ => 0
  | _ + 1, [], _ => 0
  | fuel + 1, c :: rest, p =>
    if p ≠ [] ∧ p.isPrefixOf (c :: rest) then
      1 + pyCountAux fuel ((c :: rest).drop p.length) p
    else pyCountAux fuel rest p

/-- Python `s.count(p)`: the number of non-overlapping occurrences of `p`
in `s`, scanning left to right (`"".count("") = 1`,
`s.count("") = len(s) + 1`). -/
def pyCount (s p : List Char) : Nat :=
  if p = [] then s.length + 1 else pyCountAux s.length s p

/-! ## Python `str.strip()` -/

/-- Python `str.strip()`: remove leading and trailing whitespace. -/
def strip (l : List Char) : List Char :=
  ((l.dropWhile isPySpace).reverse.dropWhile isPySpace).reverse

/-! ## Sentence splitting: `re.split(r'(?<=[.!?])\s+', text)` -/

/-- The sentence-ending punctuation of the chunker's split regex. -/
def isSentEnd (c : Char) : Bool := c = '.' || c = '!' || c = '?'

/-- Worker for `splitSentences`; `acc` holds the reversed current piece,
so `acc.head?` is the character preceding the scan position, which the
lookbehind `(?<=[.!?])` inspects.  A match consumes the maximal
whitespace run (the greedy `\s+`). -/
def splitSentencesAux : Nat → List Char → List Char → List (List Char)
  | _, [], acc => [acc.reverse]
  | 0, _ :: _, acc => [acc.reverse]
  | fuel + 1, c :: rest, acc =>
    if (match acc with
        | p :: _ => isSentEnd p && isPySpace c
        | [] => false) then
      acc.reverse :: splitSentencesAux fuel (rest.dropWhile isPySpace) []
    else splitSentencesAux fuel rest (c :: acc)

/-- `re.split(r'(?<=[.!?])\s+', text)`: split at each maximal whitespace
run that is preceded by `.`, `!` or `?`. -/
def splitSentences (s : List Char) : List (List Char) :=
  splitSentencesAux s.length s []

/-! ## ChunkingService (`app/services/chunking_service.py`) -/

/-- One element of the list returned by `ChunkingService.chunk_text`
(the dict with keys `chunk_index`, `text`, `token_count`). -/
structure ChunkRec where
  chunk_index : Nat
  text : List Char
  token_count : Nat
deriving DecidableEq, Repr

/-- `ChunkingService.estimate_tokens`: `len(text) // 4`. -/
def estimate_tokens (text : List Char) : Nat := text.length / 4

/-- Python `current_chunk[-overlap_chars:]` under the guards
`overlap_chars > 0` and `len(current_chunk) > overlap_chars`:
the last `k` characters of `l`. -/
def takeLast (k : Nat) (l : List Char) : List Char := l.drop (l.length - k)

/-- The sentence-accumulation loop of `ChunkingService.chunk_text`
(lines 43–60), followed by the final-buffer emission (lines 62–68).
Arguments: `max_chars` and `overlap_chars` (already multiplied by 4),
the remaining sentences, the current buffer, and the next chunk index. -/
def chunkLoop (max_chars overlap_chars : Nat) :
    List (List Char) → List Char → Nat → List ChunkRec
  | [], current, idx =>
    if strip current ≠ [] then
      [⟨idx, strip current, estimate_tokens current⟩]
    else []
  | s :: rest, current, idx =>
    if max_chars < current.length + s.length ∧ current ≠ [] then
      ⟨idx, strip current, estimate_tokens current⟩ ::
      chunkLoop max_chars overlap_chars rest
        (if 0 < overlap_chars ∧ overlap_chars < current.length then
          takeLast overlap_chars current ++ ' ' :: s
        else s)
        (idx + 1)
    else
      chunkLoop max_chars overlap_chars rest
        (if current = [] then s else current ++ ' ' :: s) idx

/-- `ChunkingService.chunk_text(text, max_tokens, overlap_tokens)`. -/
def chunk_text (text : List Char) (max_tokens overlap_tokens : Nat) :
    List ChunkRec :=
  if text = [] ∨ strip text = [] then []
  else chunkLoop (max_tokens * 4) (overlap_tokens * 4) (splitSentences text) [] 0

/-- A page record as produced by the PDF extraction service
(`page_number`, `text`, `character_count`). -/
structure PageData where
  page_number : Nat
  text : List Char
  character_count : Nat
deriving DecidableEq, Repr

/-- A chunk tagged with its page, as produced by
`ChunkingService.chunk_pages`. -/
structure PageChunk where
  page_number : Nat
  chunk_index : Nat
  text : List Char
  token_count : Nat
deriving DecidableEq, Repr

/-- `ChunkingService.chunk_pages`: chunk each page and tag the chunks
with that page's number, in page order. -/
def chunk_pages (pages : List PageData) (max_tokens overlap_tokens : Nat) :
    List PageChunk :=
  pages.flatMap (fun page =>
    (chunk_text page.text max_tokens overlap_tokens).map (fun c =>
      ⟨page.page_number, c.chunk_index, c.text, c.token_count⟩))

/-! ## RetrievalService (`app/services/retrieval_service.py`) -/

/-- A `Chunk` row as stored for a document (the fields read by
`RetrievalService.keyword_search`). -/
structure StoredChunk where
  id : Nat
  page_number : Nat
  text : List Char
  token_count : Nat
deriving DecidableEq, Repr

/-- One element of the scored-chunk list built by
`RetrievalService.keyword_search`. -/
structure ScoredChunk where
  chunk_id : Nat
  page_number : Nat
  text : List Char
  score : ℚ
  token_count : Nat
deriving DecidableEq, Repr

/-- The stop-word set of `RetrievalService._extract_keywords`. -/
def stop_words : List (List Char) :=
  ["the".data, "a".data, "an".data, "and".data, "or".data, "but".data,
   "in".data, "on".data, "at".data, "to".data, "for".data,
   "of".data, "with".data, "by".data, "from".data, "as".data, "is".data,
   "was".data, "are".data, "were".data, "been".data,
   "be".data, "have".data, "has".data, "had".data, "do".data, "does".data,
   "did".data, "will".data, "would".data,
   "could".data, "should".data, "may".data, "might".data, "can".data,
   "this".data, "that".data, "these".data,
   "those".data, "what".data, "which".data, "who".data, "when".data,
   "where".data, "why".data, "how".data]

/-- Worker for `findWords` over a fuel argument bounding the scan. -/
def findWordsAux : Nat → List Char → List (List Char)
  | 0, _ => []
  | _ + 1, [] => []
  | fuel + 1, c :: rest =>
    if isWordChar c then
      (c :: rest).takeWhile isWordChar ::
        findWordsAux fuel ((c :: rest).dropWhile isWordChar)
    else findWordsAux fuel rest

/-- `re.findall(r'\b\w+\b', text)`: the maximal runs of word characters. -/
def findWords (s : List Char) : List (List Char) := findWordsAux s.length s

/-- `RetrievalService._extract_keywords`: lower-case, tokenize on word
boundaries, drop stop words and tokens of length ≤ 2. -/
def extract_keywords (text : List Char) : List (List Char) :=
  (findWords (lowerStr text)).filter (fun w => w ∉ stop_words ∧ 2 < w.length)

/-- `RetrievalService._calculate_score(query_keywords, chunk_text)`:
`0.0` for an empty keyword list; otherwise the loop
`score += (chunk_text.count(keyword) / max(len(chunk_words), 1)) * 10`
over the keywords, where `chunk_words = chunk_text.lower().split()`. -/
def calculate_score (query_keywords : List (List Char)) (chunk_text : List Char) : ℚ :=
  if query_keywords = [] then 0
  else
    let chunk_words := splitWS (lowerStr chunk_text)
    query_keywords.foldl
      (fun score keyword =>
        score + (pyCount chunk_text keyword : ℚ) /
          ((max chunk_words.length 1 : Nat) : ℚ) * 10)
      0

/-- Stable insertion of one scored chunk into a descending-by-score list:
an element is placed before another exactly when its score is strictly
greater, so equal scores keep their enumeration order. -/
def insertByScore (x : ScoredChunk) : List ScoredChunk → List ScoredChunk
  | [] => [x]
  | y :: ys => if y.score < x.score then x :: y :: ys else y :: insertByScore x ys

/-- Python `scored_chunks.sort(key=lambda x: x["score"], reverse=True)`:
stable sort, descending by score. -/
def sortByScoreDesc : List ScoredChunk → List ScoredChunk
  | [] => []
  | x :: xs => insertByScore x (sortByScoreDesc xs)

/-- `RetrievalService.keyword_search` for one document, with the
document's stored chunks passed explicitly (the `db.query(Chunk)`
result, in canonical storage order). -/
def keyword_search (query : List Char) (chunks : List StoredChunk)
    (top_k : Nat) : List ScoredChunk :=
  if chunks = [] then []
  else
    let query_keywords := extract_keywords (lowerStr query)
    let scored := chunks.map (fun c =>
      ⟨c.id, c.page_number, c.text,
       calculate_score query_keywords (lowerStr c.text), c.token_count⟩)
    (sortByScoreDesc scored).take top_k

/-- `RetrievalService.format_sources_for_llm`: render each ranked chunk
as `[S{n}] (Page {page})\n{text}\n\n` (labels 1-indexed in rank order)
and return the label-to-page mapping. -/
def format_sources_for_llm (chunks : List ScoredChunk) :
    List Char × List (Nat × Nat) :=
  let enumerated := List.enumFrom 1 chunks
  (enumerated.foldl
    (fun acc p =>
      acc ++ '[' :: 'S' :: (Nat.repr p.1).data ++ "] (Page ".data ++
        (Nat.repr p.2.page_number).data ++ ")\n".data ++ p.2.text ++ "\n\n".data)
    [],
   enumerated.map (fun p => (p.1, p.2.page_number)))

/-! ## LLMService (`app/services/llm_service.py`) -/

/-- A citation record as produced by `LLMService._parse_citations`
(keys `page`, `snippet`, `source_label`). -/
structure Citation where
  page : Nat
  snippet : List Char
  source_label : List Char
deriving DecidableEq, Repr

/-- Scanner for `re.findall(r'\[S(\d+)\]', answer)`: at each position,
a match is `[`, `S`, a maximal non-empty digit run, `]`; scanning
resumes after a match, or one character later on failure.  The returned
values are the captured digit runs.  The fuel bounds the scan length. -/
def findLabelsAux : Nat → List Char → List (List Char)
  | 0, _ => []
  | _ + 1, [] => []
  | fuel + 1, c :: rest =>
    if c = '[' then
      match rest with
      | 'S' :: rest2 =>
        let ds := rest2.takeWhile Char.isDigit
        let rest3 := rest2.dropWhile Char.isDigit
        if ds ≠ [] ∧ rest3.head? = some ']' then
          ds :: findLabelsAux fuel rest3.tail
        else findLabelsAux fuel rest
      | _ => findLabelsAux fuel rest
    else findLabelsAux fuel rest

/-- `re.findall(r'\[S(\d+)\]', answer)`. -/
def findLabels (answer : List Char) : List (List Char) :=
  findLabelsAux answer.length answer

/-- The `seen`-set de-duplication loop of `LLMService._parse_citations`:
keep the first occurrence of each element, preserving order. -/
def dedupAux : List (List Char) → List (List Char) → List (List Char)
  | [], _ => []
  | x :: xs, seen =>
    if x ∈ seen then dedupAux xs seen else x :: dedupAux xs (x :: seen)

/-- De-duplicate, keeping first occurrences in order. -/
def dedupKeepFirst (l : List (List Char)) : List (List Char) := dedupAux l []

/-- Python `int` on a non-empty decimal digit string
(`int("01") = 1`). -/
def digitsToNat (ds : List Char) : Nat :=
  ds.foldl (fun n c => n * 10 + (c.toNat - 48)) 0

/-- The literal part `[S{n}]` of the snippet-extraction regex
`rf'\[S{source_num}\][^\n]*\n(.+?)(?=\n\[S|\Z)'`. -/
def header (n : Nat) : List Char := '[' :: 'S' :: (Nat.repr n).data ++ [']']

/-- Whether a string starts with the lookahead pattern `\n[S`. -/
def isHdr : List Char → Bool
  | a :: b :: c :: _ => a = '\n' && b = '[' && c = 'S'
  | _ => false

/-- The lazy group `(.+?)(?=\n\[S|\Z)` with `re.DOTALL`: consume at
least one character, stopping as soon as the remaining text is empty or
starts with `\n[S`.  Returns `none` only on empty input. -/
def takeBlock : List Char → Option (List Char)
  | [] => none
  | c :: rest =>
    if rest = [] then some [c]
    else if isHdr rest then some [c]
    else (takeBlock rest).map (c :: ·)

/-- One attempted match of the snippet regex at the current position:
the literal `[S{n}]`, then `[^\n]*` (maximal, since shorter skips cannot
reach a newline), then `\n`, then the lazy block. -/
def matchAt (n : Nat) (s : List Char) : Option (List Char) :=
  if (header n).isPrefixOf s then
    match (s.drop (header n).length).dropWhile (fun c => !(c == '\n')) with
    | '\n' :: rest => takeBlock rest
    | _ => none
  else none

/-- `re.search` of the snippet regex: the leftmost position with a full
match wins. -/
def findBlock (n : Nat) : List Char → Option (List Char)
  | [] => none
  | c :: rest =>
    match matchAt n (c :: rest) with
    | some b => some b
    | none => findBlock n rest

/-- `LLMService._extract_snippet(source_text, source_num, max_length)`. -/
def extract_snippet (source_text : List Char) (source_num : Nat)
    (max_length : Nat) : List Char :=
  match findBlock source_num source_text with
  | some block =>
    let full_text := strip block
    if max_length < full_text.length then full_text.take max_length ++ "...".data
    else full_text
  | none => "Source text not found".data

/-- `LLMService._parse_citations(answer, source_text, source_to_page)`:
find all `[S<digits>]` labels, de-duplicate keeping first occurrences,
and emit a citation for each one whose number is a key of
`source_to_page`, silently skipping the others. -/
def parse_citations (answer source_text : List Char)
    (source_to_page : List (Nat × Nat)) : List Citation :=
  (dedupKeepFirst (findLabels answer)).filterMap (fun ds =>
    match source_to_page.lookup (digitsToNat ds) with
    | some page =>
      some ⟨page, extract_snippet source_text (digitsToNat ds) 200,
            'S' :: (Nat.repr (digitsToNat ds)).data⟩
    | none => none)

/-! ## Document status state machine (`app/routers/documents.py`) -/

/-- The document status values used by the routers. -/
inductive Status where
  | uploaded
  | processing
  | indexed
  | failed
deriving DecidableEq, Repr

/-- The persisted state read and written by `index_document`: the
document row's status and indexing fields, plus its `Page` and `Chunk`
rows. -/
structure DocDB where
  doc_status : Status
  doc_page_count : Option Nat
  doc_chunk_count : Option Nat
  doc_indexed_at : Option Nat
  pages : List PageData
  chunks : List PageChunk
deriving DecidableEq, Repr

/-- The success payload of `index_document`
(`IndexingResponse`, without the constant message fields). -/
structure IndexingResult where
  pages : Nat
  chunks : Nat
  indexed_at : Nat
deriving DecidableEq, Repr

/-- The route handler `index_document` (`app/routers/documents.py`,
lines 122–221), for a document that was found and is owned by the
caller.  External effects are explicit inputs: `extract` is the outcome
of `PDFService.extract_text_from_pdf`, and `pagesCommit`,
`chunksCommit`, `finalCommit` are the outcomes of the three `db.commit()`
calls inside the `try` block (a failed commit does not persist the rows
or fields staged for it).  Timestamps are abstract naturals; `now` is
`datetime.utcnow()`.  Any exception inside the `try` block sets the
status to `failed` and surfaces `"Indexing failed: {str(e)}"`. -/
def index_document (db : DocDB) (extract : Except (List Char) (List PageData))
    (pagesCommit chunksCommit finalCommit : Except (List Char) Unit)
    (now : Nat) : DocDB × Except (List Char) IndexingResult :=
  if db.doc_status = Status.indexed then
    (db, Except.error "Document is already indexed".data)
  else
    let db1 : DocDB := { db with doc_status := Status.processing }
    match extract with
    | Except.error e =>
      ({ db1 with doc_status := Status.failed },
       Except.error ("Indexing failed: ".data ++ e))
    | Except.ok pages_data =>
      match pagesCommit with
      | Except.error e =>
        ({ db1 with doc_status := Status.failed },
         Except.error ("Indexing failed: ".data ++ e))
      | Except.ok _ =>
        let db2 : DocDB := { db1 with pages := db1.pages ++ pages_data }
        let chunks_data := chunk_pages pages_data 500 50
        match chunksCommit with
        | Except.error e =>
          ({ db2 with doc_status := Status.failed },
           Except.error ("Indexing failed: ".data ++ e))
        | Except.ok _ =>
          let db3 : DocDB := { db2 with chunks := db2.chunks ++ chunks_data }
          match finalCommit with
          | Except.error e =>
            ({ db3 with doc_status := Status.failed },
             Except.error ("Indexing failed: ".data ++ e))
          | Except.ok _ =>
            ({ db3 with doc_status := Status.indexed,
                        doc_page_count := some pages_data.length,
                        doc_chunk_count := some chunks_data.length,
                        doc_indexed_at := some now },
             Except.ok ⟨pages_data.length, chunks_data.length, now⟩)

/-! ## Chat route (`app/routers/chat.py`) -/

/-- A Python exception value as observed by the `except Exception`
handler of `ask_question`: either a FastAPI `HTTPException` (which is a
subclass of `Exception`) or a plain exception with a message. -/
inductive Exc where
  | http (status_code : Nat) (detail : List Char)
  | other (msg : List Char)
deriving DecidableEq, Repr

/-- Python `str(e)`: Starlette's `HTTPException.__str__` renders
`f"{status_code}: {detail}"`; a plain exception renders its message. -/
def excStr : Exc → List Char
  | Exc.http code detail => (Nat.repr code).data ++ ": ".data ++ detail
  | Exc.other msg => msg

/-- One entry of the `citations_json` payload persisted with an
assistant message (`page`, `snippet`, `chunk_id`). -/
structure CitationOut where
  page : Nat
  snippet : List Char
  chunk_id : Option Nat
deriving DecidableEq, Repr

/-- A `Message` row (`conversation_id`, `role`, `content`,
`citations_json`). -/
structure MessageRow where
  conversation_id : Nat
  role : List Char
  content : List Char
  citations_json : Option (List CitationOut)
deriving DecidableEq, Repr

/-- A `Conversation` row (the fields `ask_question` touches). -/
structure ConversationRow where
  id : Nat
  document_id : Nat
  title : List Char
  updated_at : Nat
deriving DecidableEq, Repr

/-- The persisted state read and written by `ask_question`. -/
structure ChatDB where
  convs : List ConversationRow
  msgs : List MessageRow
deriving DecidableEq, Repr

/-- The errors `ask_question` can surface
(`HTTPException` with status 400, 404 or 500). -/
inductive AskError where
  | badRequest (detail : List Char)
  | notFound (detail : List Char)
  | internal (detail : List Char)
deriving DecidableEq, Repr

/-- The success payload of `ask_question` (`AskResponse`; the
database-assigned `message_id` is modelled as the assistant row's
position in the message table). -/
structure AskResp where
  answer : List Char
  citations : List CitationOut
  conversation_id : Nat
  message_id : Nat
deriving DecidableEq, Repr

/-- The string stored in a document row's `status` column. -/
def statusStr : Status → List Char
  | Status.uploaded => "uploaded".data
  | Status.processing => "processing".data
  | Status.indexed => "indexed".data
  | Status.failed => "failed".data

/-- Conversation resolution in `ask_question` (lines 57–87): an existing
positive `conversation_id` must name a conversation of this document and
user; a non-positive one is rejected; an absent one creates and commits
a new conversation titled from the first 100 characters of the question.
`newConvId` is the database-assigned id of a freshly inserted row. -/
def resolveConv (db : ChatDB) (document_id : Nat)
    (conversation_id : Option Int) (question : List Char)
    (newConvId : Nat) (now : Nat) :
    Except AskError (ConversationRow × ChatDB) :=
  match conversation_id with
  | some cid =>
    if 0 < cid then
      match db.convs.find? (fun cv =>
          cv.id == cid.toNat && cv.document_id == document_id) with
      | some conv => Except.ok (conv, db)
      | none =>
        Except.error (AskError.notFound ("Conversation ".data ++
          (Nat.repr cid.toNat).data ++
          " not found or does not belong to you".data))
    else
      Except.error (AskError.badRequest
        "Invalid conversation_id. Must be a positive integer or omit the field for a new conversation".data)
  | none =>
    let title := if 100 < question.length then question.take 100 ++ "...".data
                 else question
    let conv : ConversationRow := ⟨newConvId, document_id, title, now⟩
    Except.ok (conv, { db with convs := db.convs ++ [conv] })

/-- The route handler `ask_question` (`app/routers/chat.py`,
lines 17–158), for a document that was found and is owned by the caller.
External effects are explicit inputs: `chunks` is the document's stored
chunk list (the retrieval query result), `llm` the outcome of the
Gemini call inside `LLMService.answer_with_sources` (whose failure is
re-raised as `Exception("LLM API error: ...")`), and `persist` the
outcome of the `db.commit()` that writes the user message, the assistant
message and the conversation timestamp; a failed commit persists none of
them, and the `except Exception` handler rolls back and surfaces
`"Failed to process question: {str(e)}"` — including for the
`HTTPException(404)` raised when retrieval returns no chunks, since
`HTTPException` is an `Exception`. -/
def ask_question (db : ChatDB) (doc_status : Status) (document_id : Nat)
    (conversation_id : Option Int) (question : List Char)
    (chunks : List StoredChunk) (llm : Except (List Char) (List Char))
    (persist : Except (List Char) Unit) (newConvId : Nat) (now : Nat) :
    ChatDB × Except AskError AskResp :=
  if doc_status ≠ Status.indexed then
    (db, Except.error (AskError.badRequest
      ("Document is not ready for questions. Current status: ".data ++
        statusStr doc_status)))
  else
    match resolveConv db document_id conversation_id question newConvId now with
    | Except.error e => (db, Except.error e)
    | Except.ok (conv, db1) =>
      let tryBlock : Except Exc (ChatDB × AskResp) :=
        let relevant_chunks := keyword_search question chunks 5
        if relevant_chunks = [] then
          Except.error (Exc.http 404 "No relevant content found in the document".data)
        else
          let fmt := format_sources_for_llm relevant_chunks
          match llm with
          | Except.error e => Except.error (Exc.other ("LLM API error: ".data ++ e))
          | Except.ok answer =>
            let citations := parse_citations answer fmt.1 fmt.2
            let citations_json := citations.map (fun c =>
              ⟨c.page, c.snippet,
               (relevant_chunks.get? (digitsToNat (c.source_label.drop 1) - 1)).map
                 (fun rc => rc.chunk_id)⟩)
            match persist with
            | Except.error e => Except.error (Exc.other e)
            | Except.ok _ =>
              let user_message : MessageRow := ⟨conv.id, "user".data, question, none⟩
              let assistant_message : MessageRow :=
                ⟨conv.id, "assistant".data, answer, some citations_json⟩
              let db2 : ChatDB :=
                { db1 with
                  msgs := db1.msgs ++ [user_message, assistant_message],
                  convs := db1.convs.map (fun cv =>
                    if cv.id == conv.id then { cv with updated_at := now } else cv) }
              Except.ok (db2, ⟨answer, citations_json, conv.id, db2.msgs.length⟩)
      match tryBlock with
      | Except.ok (db2, resp) => (db2, Except.ok resp)
      | Except.error e =>
        (db1, Except.error (AskError.internal
          ("Failed to process question: ".data ++ excStr e)))

/-! ## Spec-worded variant of the chunker's buffer seeding (for claim C3) -/

/-- Modelled from the spec: the new-buffer seeding rule as the spec
words it — "if the overlap byte budget (`overlapTokens*4`) is smaller
than the previous buffer's length, the new buffer starts with the last
`overlapTokens*4` characters of the previous buffer, a single space,
then the triggering sentence; otherwise the new buffer starts with just
the triggering sentence".  It omits the source's extra
`overlap_chars > 0` guard.  Only used to compare against `chunkLoop`. -/
def chunkLoopSpecSeed (max_chars overlap_chars : Nat) :
    List (List Char) → List Char → Nat → List ChunkRec
  | [], current, idx =>
    if strip current ≠ [] then
      [⟨idx, strip current, estimate_tokens current⟩]
    else []
  | s :: rest, current, idx =>
    if max_chars < current.length + s.length ∧ current ≠ [] then
      ⟨idx, strip current, estimate_tokens current⟩ ::
      chunkLoopSpecSeed max_chars overlap_chars rest
        (if overlap_chars < current.length then
          takeLast overlap_chars current ++ ' ' :: s
        else s)
        (idx + 1)
    else
      chunkLoopSpecSeed max_chars overlap_chars rest
        (if current = [] then s else current ++ ' ' :: s) idx

/-- Modelled from the spec: `chunk_text` with the spec-worded seeding
rule of `chunkLoopSpecSeed` in place of the source's. -/
def chunk_textSpecSeed (text : List Char) (max_tokens overlap_tokens : Nat) :
    List ChunkRec :=
  if text = [] ∨ strip text = [] then []
  else chunkLoopSpecSeed (max_tokens * 4) (overlap_tokens * 4) (splitSentences text) [] 0

/-! ## Helper lemmas: characters and whitespace -/

lemma charOfNat_toNat_small : ∀ m : Fin 123, (Char.ofNat m.1).toNat = m.1 := by
  decide

lemma isPySpace_lowerChar (c : Char) : isPySpace (lowerChar c) = isPySpace c := by
  unfold lowerChar
  by_cases h : 65 ≤ c.toNat ∧ c.toNat ≤ 90
  · have h122 : c.toNat + 32 < 123 := by omega
    have htn : (Char.ofNat (c.toNat + 32)).toNat = c.toNat + 32 :=
      charOfNat_toNat_small ⟨c.toNat + 32, h122⟩
    have h1 : isPySpace (Char.ofNat (c.toNat + 32)) = false := by
      simp only [isPySpace, htn, Bool.or_eq_false_iff, decide_eq_false_iff_not]
      omega
    have h2 : isPySpace c = false := by
      simp only [isPySpace, Bool.or_eq_false_iff, decide_eq_false_iff_not]
      omega
    simp [h, h1, h2]
  · simp [h]

lemma splitWSAux_length_map (f : Char → Char)
    (hf : ∀ c, isPySpace (f c) = isPySpace c) :
    ∀ (s : List Char) (acc1 acc2 : List Char), (acc1 = [] ↔ acc2 = []) →
      (splitWSAux (s.map f) acc1).length = (splitWSAux s acc2).length := by
  intro s
  induction s with
  | nil =>
    intro acc1 acc2 h
    by_cases h1 : acc1 = []
    · simp [splitWSAux, h1, h.mp h1]
    · have h2 : acc2 ≠ [] := fun h2 => h1 (h.mpr h2)
      simp [splitWSAux, h1, h2]
  | cons c rest ih =>
    intro acc1 acc2 h
    simp only [List.map_cons, splitWSAux, hf c]
    by_cases hsp : isPySpace c
    · simp only [hsp, if_true]
      by_cases h1 : acc1 = []
      · simp [h1, h.mp h1, ih [] [] (by simp)]
      · have h2 : acc2 ≠ [] := fun h2 => h1 (h.mpr h2)
        simp [h1, h2, ih [] [] (by simp)]
    · simp only [hsp, if_false, Bool.false_eq_true]
      exact ih (f c :: acc1) (c :: acc2) (by simp)

lemma splitWS_length_lowerStr (s : List Char) :
    (splitWS (lowerStr s)).length = (splitWS s).length :=
  splitWSAux_length_map lowerChar isPySpace_lowerChar s [] [] Iff.rfl

lemma foldl_add_eq_sum (l : List (List Char)) (g : List Char → ℚ) :
    ∀ a : ℚ, l.foldl (fun s x => s + g x) a = a + (l.map g).sum := by
  induction l with
  | nil => intro a; simp
  | cons x xs ih =>
    intro a
    simp only [List.foldl_cons, List.map_cons, List.sum_cons, ih (a + g x)]
    ring

/-! ## Claim C1: the Retriever's relevance score -/

/-- Claim C1: for every chunk text and every list of query keywords, the
relevance score computed by `RetrievalService._calculate_score` on the
lower-cased chunk text (as `keyword_search` calls it) equals the sum,
over the keywords, of the number of raw substring occurrences of the
keyword in the lower-cased chunk text, divided by the number of
whitespace-separated tokens of the chunk text with minimum divisor 1,
multiplied by 10; an empty keyword list scores 0, and a chunk in which
no keyword occurs scores 0. -/
theorem retriever_score_formula (kws : List (List Char)) (text : List Char) :
    calculate_score kws (lowerStr text)
        = (kws.map (fun kw =>
            (pyCount (lowerStr text) kw : ℚ) /
              ((max (splitWS text).length 1 : Nat) : ℚ) * 10)).sum
    ∧ (kws = [] → calculate_score kws (lowerStr text) = 0)
    ∧ ((∀ kw ∈ kws, pyCount (lowerStr text) kw = 0) →
        calculate_score kws (lowerStr text) = 0) := by
  have hmain : calculate_score kws (lowerStr text)
      = (kws.map (fun kw =>
          (pyCount (lowerStr text) kw : ℚ) /
            ((max (splitWS text).length 1 : Nat) : ℚ) * 10)).sum := by
    unfold calculate_score
    by_cases hk : kws = []
    · simp [hk]
    · simp only [hk, if_false, foldl_add_eq_sum, zero_add,
        splitWS_length_lowerStr]
  refine ⟨hmain, fun hk => by rw [hmain, hk]; simp, fun hz => ?_⟩
  rw [hmain]
  apply List.sum_eq_zero
  intro x hx
  rcases List.mem_map.mp hx with ⟨kw, hkw, rfl⟩
  rw [hz kw hkw]
  simp

/-- Witness for C1 at concrete inputs: the keyword `cat` occurs twice as
a raw substring of `the cat category` (once inside `category`), which has
3 whitespace tokens, so the score is `2/3 * 10 = 20/3`; the empty keyword
list scores 0. -/
theorem retriever_score_formula_witness :
    calculate_score ["cat".data] (lowerStr "The cat category".data) = 20 / 3 ∧
      calculate_score [] (lowerStr "x".data) = 0 := by
  constructor
  · rw [(retriever_score_formula ["cat".data] ("The cat category".data)).1]
    have h1 : pyCount (lowerStr "The cat category".data) "cat".data = 2 := by decide
    have h2 : (splitWS "The cat category".data).length = 3 := by decide
    simp only [List.map_cons, List.map_nil, List.sum_cons, List.sum_nil,
      add_zero, h1, h2]
    norm_num
  · exact (retriever_score_formula [] ("x".data)).2.1 rfl

/-! ## Helper lemmas: `strip` and the chunking loop -/

lemma dropWhile_dropWhile (p : Char → Bool) (l : List Char) :
    (l.dropWhile p).dropWhile p = l.dropWhile p := by
  induction l with
  | nil => rfl
  | cons c rest ih =>
    by_cases h : p c
    · simp [List.dropWhile_cons, h, ih]
    · simp [List.dropWhile_cons, h]

lemma strip_length_le (l : List Char) : (strip l).length ≤ l.length := by
  have h1 := (List.dropWhile_suffix
    (l := (l.dropWhile isPySpace).reverse) isPySpace).length_le
  have h2 := (List.dropWhile_suffix (l := l) isPySpace).length_le
  simp only [strip, List.length_reverse] at *
  omega

lemma dropWhile_head_false (p : Char → Bool) (l : List Char) (a : Char)
    (as : List Char) (h : l.dropWhile p = a :: as) : p a = false := by
  induction l with
  | nil => simp [List.dropWhile_nil] at h
  | cons c rest ih =>
    rw [List.dropWhile_cons] at h
    by_cases hc : p c
    · exact ih (by simpa [hc] using h)
    · rw [if_neg (by simp [hc])] at h
      cases h
      simpa using hc

lemma dropWhile_stripped_reverse (m : List Char)
    (hm : m.dropWhile isPySpace = m) :
    ((m.reverse.dropWhile isPySpace).reverse).dropWhile isPySpace
      = (m.reverse.dropWhile isPySpace).reverse := by
  cases m with
  | nil => simp
  | cons a as =>
    have hpa : isPySpace a = false := by
      rw [List.dropWhile_cons] at hm
      by_cases h : isPySpace a
      · exfalso
        rw [if_pos (by simp [h])] at hm
        have := (List.dropWhile_suffix (l := as) isPySpace).length_le
        rw [hm] at this
        simp at this
      · simpa using h
    rw [List.reverse_cons, List.dropWhile_append]
    by_cases hD : (as.reverse.dropWhile isPySpace).isEmpty
    · simp only [hD, if_true]
      simp [List.dropWhile_cons, hpa]
    · simp only [hD, if_false, Bool.false_eq_true]
      rw [List.reverse_append]
      simp [List.dropWhile_cons, hpa]

lemma strip_dropWhile (l : List Char) :
    (strip l).dropWhile isPySpace = strip l :=
  dropWhile_stripped_reverse (l.dropWhile isPySpace) (dropWhile_dropWhile _ _)

lemma strip_idem (l : List Char) : strip (strip l) = strip l := by
  have h1 : (strip l).dropWhile isPySpace = strip l := strip_dropWhile l
  show (((strip l).dropWhile isPySpace).reverse.dropWhile isPySpace).reverse
      = strip l
  rw [h1]
  have h2 : (strip l).reverse
      = (l.dropWhile isPySpace).reverse.dropWhile isPySpace := by
    simp [strip]
  rw [h2, dropWhile_dropWhile]
  simp [strip]

/-- The buffers the chunking loop can be holding, for sentence set `S`:
either a short buffer (at most one joining space over the byte budget),
or a single sentence, or an overlap seed (an `overlap_chars`-character
tail, a space, and a sentence). -/
def GoodBuf (max_chars overlap_chars : Nat) (S : List (List Char))
    (b : List Char) : Prop :=
  b.length ≤ max_chars + 1 ∨ b ∈ S ∨
    ∃ t s, s ∈ S ∧ t.length = overlap_chars ∧ b = t ++ ' ' :: s

lemma chunkLoop_shape (max_chars overlap_chars : Nat) (S : List (List Char)) :
    ∀ (ss : List (List Char)) (cur : List Char) (idx : Nat),
      (∀ s ∈ ss, s ∈ S) → GoodBuf max_chars overlap_chars S cur →
      ∀ c ∈ chunkLoop max_chars overlap_chars ss cur idx,
        ∃ b, GoodBuf max_chars overlap_chars S b ∧
          c.text = strip b ∧ c.token_count = b.length / 4 := by
  intro ss
  induction ss with
  | nil =>
    intro cur idx _ hcur c hc
    simp only [chunkLoop] at hc
    by_cases h : strip cur ≠ []
    · rw [if_pos h] at hc
      simp only [List.mem_singleton] at hc
      exact ⟨cur, hcur, by rw [hc], by rw [hc]; rfl⟩
    · rw [if_neg h] at hc
      simp at hc
  | cons s rest ih =>
    intro cur idx hss hcur c hc
    simp only [chunkLoop] at hc
    by_cases hg : max_chars < cur.length + s.length ∧ cur ≠ []
    · rw [if_pos hg] at hc
      rcases List.mem_cons.mp hc with h | h
      · exact ⟨cur, hcur, by rw [h], by rw [h]; rfl⟩
      · refine ih _ _ (fun x hx => hss x (List.mem_cons_of_mem _ hx)) ?_ c h
        by_cases ho : 0 < overlap_chars ∧ overlap_chars < cur.length
        · rw [if_pos ho]
          refine Or.inr (Or.inr ⟨takeLast overlap_chars cur, s,
            hss s (List.mem_cons_self _ _), ?_, rfl⟩)
          simp only [takeLast, List.length_drop]
          omega
        · rw [if_neg ho]
          exact Or.inr (Or.inl (hss s (List.mem_cons_self _ _)))
    · rw [if_neg hg] at hc
      by_cases hce : cur = []
      · refine ih _ _ (fun x hx => hss x (List.mem_cons_of_mem _ hx)) ?_ c
          (by rwa [if_pos hce] at hc)
        exact Or.inr (Or.inl (hss s (List.mem_cons_self _ _)))
      · refine ih _ _ (fun x hx => hss x (List.mem_cons_of_mem _ hx)) ?_ c
          (by rwa [if_neg hce] at hc)
        left
        have hlen : cur.length + s.length ≤ max_chars := by
          by_contra hlt
          exact hg ⟨by omega, hce⟩
        simp only [List.length_append, List.length_cons]
        omega

/-! ## Claim C2: chunk length bound and emission condition -/

/-- Claim C2 (amended): every chunk emitted by `chunk_text` is trimmed of
surrounding whitespace, and either has character length at most
`maxTokens*4 + 1` (the threshold does not count the joining space added
on append), or is the trimmed form of a single sentence, or is the
trimmed form of an overlap seed (an `overlapTokens*4`-character tail, a
space, and a single sentence); within the accumulation loop, emission
happens exactly when the buffer is non-empty and the buffer length plus
the next sentence length exceeds `maxTokens*4`, the emitted text being
the trimmed buffer. -/
theorem chunk_length_and_emission (text : List Char) (maxT ovT : Nat) :
    (∀ c ∈ chunk_text text maxT ovT,
       strip c.text = c.text ∧
       (c.text.length ≤ maxT * 4 + 1
        ∨ (∃ s ∈ splitSentences text, c.text = strip s)
        ∨ (∃ t s, s ∈ splitSentences text ∧ t.length = ovT * 4 ∧
             c.text = strip (t ++ ' ' :: s))))
    ∧ (∀ (ss : List (List Char)) (cur s : List Char) (idx : Nat),
         maxT * 4 < cur.length + s.length → cur ≠ [] →
         chunkLoop (maxT * 4) (ovT * 4) (s :: ss) cur idx
           = ⟨idx, strip cur, cur.length / 4⟩ ::
             chunkLoop (maxT * 4) (ovT * 4) ss
               (if 0 < ovT * 4 ∧ ovT * 4 < cur.length then
                 takeLast (ovT * 4) cur ++ ' ' :: s
               else s) (idx + 1))
    ∧ (∀ (ss : List (List Char)) (cur s : List Char) (idx : Nat),
         ¬(maxT * 4 < cur.length + s.length ∧ cur ≠ []) →
         chunkLoop (maxT * 4) (ovT * 4) (s :: ss) cur idx
           = chunkLoop (maxT * 4) (ovT * 4) ss
               (if cur = [] then s else cur ++ ' ' :: s) idx) := by
  refine ⟨?_, ?_, ?_⟩
  · intro c hc
    unfold chunk_text at hc
    by_cases he : text = [] ∨ strip text = []
    · rw [if_pos he] at hc
      simp at hc
    · rw [if_neg he] at hc
      rcases chunkLoop_shape (maxT * 4) (ovT * 4) (splitSentences text)
        (splitSentences text) [] 0 (fun _ hx => hx)
        (Or.inl (by simp)) c hc with ⟨b, hgood, htext, _⟩
      refine ⟨by rw [htext, strip_idem], ?_⟩
      rcases hgood with hlen | hmem | ⟨t, s, hs, ht, rfl⟩
      · exact Or.inl (by rw [htext]; exact le_trans (strip_length_le b) hlen)
      · exact Or.inr (Or.inl ⟨b, hmem, htext⟩)
      · exact Or.inr (Or.inr ⟨t, s, hs, ht, htext⟩)
  · intro ss cur s idx h1 h2
    simp only [chunkLoop]
    rw [if_pos ⟨h1, h2⟩]
    rfl
  · intro ss cur s idx hng
    simp only [chunkLoop]
    rw [if_neg hng]

/-- Witness for C2 at a concrete input: the first chunk of
`chunk_text "abc. def. x" 2 0` satisfies the amended trichotomy, and a
loop step with a full buffer emits it. -/
theorem chunk_length_and_emission_witness :
    (strip ("abc. def.".data : List Char) = "abc. def.".data ∧
      (("abc. def.".data : List Char).length ≤ 2 * 4 + 1
       ∨ (∃ s ∈ splitSentences "abc. def. x".data,
            "abc. def.".data = strip s)
       ∨ (∃ t s, s ∈ splitSentences "abc. def. x".data ∧
            t.length = 0 * 4 ∧ "abc. def.".data = strip (t ++ ' ' :: s))))
    ∧ chunkLoop (2 * 4) (0 * 4) ["x".data] "abc. def.".data 1
        = ⟨1, strip "abc. def.".data, ("abc. def.".data : List Char).length / 4⟩ ::
          chunkLoop (2 * 4) (0 * 4) []
            (if 0 < 0 * 4 ∧ 0 * 4 < ("abc. def.".data : List Char).length then
              takeLast (0 * 4) "abc. def.".data ++ ' ' :: "x".data
            else "x".data) 2 := by
  constructor
  · exact (chunk_length_and_emission "abc. def. x".data 2 0).1
      ⟨0, "abc. def.".data, 2⟩ (by decide)
  · exact (chunk_length_and_emission "abc. def. x".data 2 0).2.1
      [] "abc. def.".data "x".data 1 (by decide) (by decide)

/-- Counterexample for C2 as stated: with `maxTokens = 2`,
`overlapTokens = 0`, the input `abc. def. x` yields the chunk
`abc. def.` of length 9 > 8 = `maxTokens*4`, although every sentence of
the input has length at most 8 (so it is not a single-sentence overflow
chunk); and with `overlapTokens = 1` the input `abcdefg. hijklmn. x`
yields the overlap-seeded chunk `efg. hijklmn.` of length 13, exceeding
even `maxTokens*4 + 1`. -/
theorem chunk_length_bound_counterexample :
    (chunk_text "abc. def. x".data 2 0).map ChunkRec.text
        = ["abc. def.".data, "x".data]
    ∧ ("abc. def.".data : List Char).length = 9 ∧ 2 * 4 < 9
    ∧ (∀ s ∈ splitSentences "abc. def. x".data, s.length ≤ 2 * 4)
    ∧ (chunk_text "abcdefg. hijklmn. x".data 2 1).map ChunkRec.text
        = ["abcdefg.".data, "efg. hijklmn.".data, "lmn. x".data]
    ∧ ("efg. hijklmn.".data : List Char).length = 13 ∧ 2 * 4 + 1 < 13
    ∧ (∀ s ∈ splitSentences "abcdefg. hijklmn. x".data, s.length ≤ 2 * 4) := by
  decide

/-! ## Claim C3: new-buffer seeding on emission -/

/-- Claim C3 (amended): whenever the loop emits a chunk, the new buffer
is the last `overlap_chars` characters of the previous buffer, a single
space, and the triggering sentence exactly when `overlap_chars` is
positive AND smaller than the previous buffer's length; otherwise — in
particular always when `overlapTokens = 0` — the new buffer is just the
triggering sentence. -/
theorem chunk_overlap_seed (max_chars overlap_chars : Nat)
    (ss : List (List Char)) (cur s : List Char) (idx : Nat)
    (h1 : max_chars < cur.length + s.length) (h2 : cur ≠ []) :
    ∃ next, chunkLoop max_chars overlap_chars (s :: ss) cur idx
        = ⟨idx, strip cur, cur.length / 4⟩ ::
          chunkLoop max_chars overlap_chars ss next (idx + 1)
      ∧ next = (if 0 < overlap_chars ∧ overlap_chars < cur.length then
          takeLast overlap_chars cur ++ ' ' :: s else s)
      ∧ (overlap_chars = 0 → next = s) := by
  refine ⟨_, ?_, rfl, ?_⟩
  · simp only [chunkLoop]
    rw [if_pos ⟨h1, h2⟩]
    rfl
  · intro h0
    rw [h0]
    simp

/-- Witness for C3 at a concrete input: an emission step with
`overlap_chars = 0` seeds the new buffer with just the sentence. -/
theorem chunk_overlap_seed_witness :
    ∃ next, chunkLoop 4 0 ["ef.".data] "abcd.".data 0
        = ⟨0, strip "abcd.".data, ("abcd.".data : List Char).length / 4⟩ ::
          chunkLoop 4 0 [] next 1
      ∧ next = (if 0 < 0 ∧ 0 < ("abcd.".data : List Char).length then
          takeLast 0 "abcd.".data ++ ' ' :: "ef.".data else "ef.".data)
      ∧ (0 = 0 → next = "ef.".data) :=
  chunk_overlap_seed 4 0 [] "abcd.".data "ef.".data 0 (by decide) (by decide)

/-- Counterexample for C3 as stated: with `overlapTokens = 0` the claim's
condition `overlapTokens*4 < len(buffer)` holds at the emission triggered
in `chunk_text "abcd. ef." 1 0` (the buffer `abcd.` has length 5 > 0),
so the claim predicts the new buffer `" ef."`; the code starts the new
buffer with just `ef.`, observably changing the emitted `token_count`
(0 instead of 1), as the spec-worded variant `chunk_textSpecSeed`
shows. -/
theorem chunk_overlap_seed_counterexample :
    chunk_text "abcd. ef.".data 1 0
        = [⟨0, "abcd.".data, 1⟩, ⟨1, "ef.".data, 0⟩]
    ∧ chunk_textSpecSeed "abcd. ef.".data 1 0
        = [⟨0, "abcd.".data, 1⟩, ⟨1, "ef.".data, 1⟩]
    ∧ chunk_text "abcd. ef.".data 1 0 ≠ chunk_textSpecSeed "abcd. ef.".data 1 0
    ∧ 0 * 4 < ("abcd.".data : List Char).length := by
  decide

/-! ## Claim C10: token counts are taken before trimming -/

/-- Claim C10: every chunk emitted by `chunk_text` stores as `text` the
trimmed form of some accumulation buffer and as `token_count` that same
buffer's length divided by 4 before trimming; consequently there are
inputs (surrounding whitespace on the buffer) where `token_count`
differs from `len(text) // 4` — e.g. `chunk_text "   abcd." 500 50`
stores `token_count = 2` for the 6-character text `abcd.`. -/
theorem chunk_token_count_untrimmed (text : List Char) (maxT ovT : Nat) :
    (∀ c ∈ chunk_text text maxT ovT,
        ∃ b, c.text = strip b ∧ c.token_count = b.length / 4)
    ∧ chunk_text "   abcd.".data 500 50 = [⟨0, "abcd.".data, 2⟩]
    ∧ ("abcd.".data : List Char).length / 4 = 1 ∧ (2 : Nat) ≠ 1 := by
  refine ⟨?_, by decide, by decide, by decide⟩
  intro c hc
  unfold chunk_text at hc
  by_cases he : text = [] ∨ strip text = []
  · rw [if_pos he] at hc
    simp at hc
  · rw [if_neg he] at hc
    rcases chunkLoop_shape (maxT * 4) (ovT * 4) (splitSentences text)
      (splitSentences text) [] 0 (fun _ hx => hx)
      (Or.inl (by simp)) c hc with ⟨b, _, htext, htok⟩
    exact ⟨b, htext, htok⟩

/-- Witness for C10 at a concrete input: the single chunk of
`chunk_text "   abcd." 500 50` is the trimmed form of a buffer whose
untrimmed length yields `token_count = 2`. -/
theorem chunk_token_count_untrimmed_witness :
    ∃ b, ("abcd.".data : List Char) = strip b ∧ 2 = b.length / 4 := by
  have h := (chunk_token_count_untrimmed "   abcd.".data 500 50).1
    ⟨0, "abcd.".data, 2⟩ (by decide)
  exact h

/-! ## Helper lemmas: de-duplication -/

lemma dedupAux_subset : ∀ (l seen : List (List Char)) (x : List Char),
    x ∈ dedupAux l seen → x ∈ l := by
  intro l
  induction l with
  | nil => intro seen x hx; simp [dedupAux] at hx
  | cons y ys ih =>
    intro seen x hx
    simp only [dedupAux] at hx
    by_cases h : y ∈ seen
    · rw [if_pos h] at hx
      exact List.mem_cons_of_mem _ (ih _ _ hx)
    · rw [if_neg h] at hx
      rcases List.mem_cons.mp hx with rfl | hx
      · exact List.mem_cons_self _ _
      · exact List.mem_cons_of_mem _ (ih _ _ hx)

lemma dedupAux_not_seen : ∀ (l seen : List (List Char)) (x : List Char),
    x ∈ dedupAux l seen → x ∉ seen := by
  intro l
  induction l with
  | nil => intro seen x hx; simp [dedupAux] at hx
  | cons y ys ih =>
    intro seen x hx
    simp only [dedupAux] at hx
    by_cases h : y ∈ seen
    · rw [if_pos h] at hx
      exact ih _ _ hx
    · rw [if_neg h] at hx
      rcases List.mem_cons.mp hx with rfl | hx
      · exact h
      · intro hxseen
        exact ih _ _ hx (List.mem_cons_of_mem _ hxseen)

lemma dedupAux_nodup : ∀ (l seen : List (List Char)), (dedupAux l seen).Nodup := by
  intro l
  induction l with
  | nil => intro seen; simp [dedupAux]
  | cons y ys ih =>
    intro seen
    simp only [dedupAux]
    by_cases h : y ∈ seen
    · rw [if_pos h]; exact ih _
    · rw [if_neg h]
      refine List.nodup_cons.mpr ⟨fun hy => ?_, ih _⟩
      exact dedupAux_not_seen _ _ _ hy (List.mem_cons_self _ _)

lemma dedupAux_complete : ∀ (l seen : List (List Char)) (x : List Char),
    x ∈ l → x ∉ seen → x ∈ dedupAux l seen := by
  intro l
  induction l with
  | nil => intro seen x hx; simp at hx
  | cons y ys ih =>
    intro seen x hx hseen
    simp only [dedupAux]
    by_cases h : y ∈ seen
    · rw [if_pos h]
      rcases List.mem_cons.mp hx with rfl | hx
      · exact absurd h hseen
      · exact ih _ _ hx hseen
    · rw [if_neg h]
      rcases List.mem_cons.mp hx with rfl | hx
      · exact List.mem_cons_self _ _
      · by_cases hxy : x = y
        · subst hxy; exact List.mem_cons_self _ _
        · exact List.mem_cons_of_mem _ (ih _ _ hx (by
            intro hmem
            rcases List.mem_cons.mp hmem with h1 | h1
            · exact hxy h1
            · exact hseen h1))

lemma filterMap_citation_labels (source_text : List Char)
    (m : List (Nat × Nat)) :
    ∀ l : List (List Char),
      ((l.filterMap (fun ds =>
          match m.lookup (digitsToNat ds) with
          | some page =>
            some (⟨page, extract_snippet source_text (digitsToNat ds) 200,
                  'S' :: (Nat.repr (digitsToNat ds)).data⟩ : Citation)
          | none => none)).map Citation.source_label)
        = (l.filter (fun ds => (m.lookup (digitsToNat ds)).isSome)).map
            (fun ds => 'S' :: (Nat.repr (digitsToNat ds)).data) := by
  intro l
  induction l with
  | nil => rfl
  | cons x xs ih =>
    cases hl : m.lookup (digitsToNat x) with
    | some page =>
      simp only [List.filterMap_cons, List.filter_cons, hl, Option.isSome_some,
        if_true, List.map_cons, ih]
    | none =>
      simp only [List.filterMap_cons, List.filter_cons, hl, Option.isSome_none,
        Bool.false_eq_true, if_false, ih]

/-! ## Claim C4: citation parsing -/

/-- Claim C4: `_parse_citations` returns one citation per distinct
matched label `[S<digits>]` of the answer (labels de-duplicated by their
first occurrence, order preserved) whose number is a key of the
label-to-page map; each citation carries the looked-up page, the snippet
extracted for that number, and the label `S<number>`; labels whose
number is not a key are silently dropped. -/
theorem citation_parsing_labels (answer source_text : List Char)
    (m : List (Nat × Nat)) :
    (parse_citations answer source_text m).map Citation.source_label
        = ((dedupKeepFirst (findLabels answer)).filter
            (fun ds => (m.lookup (digitsToNat ds)).isSome)).map
            (fun ds => 'S' :: (Nat.repr (digitsToNat ds)).data)
    ∧ (dedupKeepFirst (findLabels answer)).Nodup
    ∧ (∀ ds, ds ∈ dedupKeepFirst (findLabels answer) ↔ ds ∈ findLabels answer)
    ∧ (∀ c ∈ parse_citations answer source_text m,
        ∃ ds ∈ findLabels answer,
          m.lookup (digitsToNat ds) = some c.page ∧
          c.source_label = 'S' :: (Nat.repr (digitsToNat ds)).data ∧
          c.snippet = extract_snippet source_text (digitsToNat ds) 200) := by
  refine ⟨filterMap_citation_labels source_text m _, dedupAux_nodup _ _,
    fun ds => ⟨fun h => dedupAux_subset _ _ _ h,
               fun h => dedupAux_complete _ _ _ h (by simp)⟩, ?_⟩
  intro c hc
  unfold parse_citations at hc
  rcases List.mem_filterMap.mp hc with ⟨ds, hds, hF⟩
  refine ⟨ds, dedupAux_subset _ _ _ hds, ?_⟩
  cases hl : m.lookup (digitsToNat ds) with
  | some page =>
    rw [hl] at hF
    cases hF
    exact ⟨rfl, rfl, rfl⟩
  | none =>
    rw [hl] at hF
    cases hF

/-- Witness for C4 at a concrete input: the answer `[S1][S2][S1]` with
map `{1 ↦ 3}` yields exactly the citation for `S1` (page 3), the
duplicate `[S1]` de-duplicated and the unmapped `[S2]` dropped. -/
theorem citation_parsing_labels_witness :
    ∃ ds ∈ findLabels "[S1][S2][S1]".data,
      List.lookup (digitsToNat ds) [(1, 3)] = some 3 ∧
      ("S1".data : List Char) = 'S' :: (Nat.repr (digitsToNat ds)).data ∧
      ("Paris.".data : List Char)
        = extract_snippet "[S1] (Page 3)\nParis.\n\n".data (digitsToNat ds) 200 := by
  have h := (citation_parsing_labels "[S1][S2][S1]".data
      "[S1] (Page 3)\nParis.\n\n".data [(1, 3)]).2.2.2
    ⟨3, "Paris.".data, "S1".data⟩ (by decide)
  exact h

/-! ## Helper lemmas: snippet extraction -/

lemma isHdr_iff (l : List Char) :
    isHdr l = true ↔ ∃ t, l = '\n' :: '[' :: 'S' :: t := by
  rcases l with _ | ⟨a, _ | ⟨b, _ | ⟨c, t⟩⟩⟩ <;> simp [isHdr]
  tauto

lemma takeBlock_spec : ∀ (l b : List Char), takeBlock l = some b →
    ∃ suff, l = b ++ suff ∧ b ≠ [] ∧ (suff = [] ∨ isHdr suff = true) ∧
      (∀ b1 b2, b = b1 ++ '\n' :: '[' :: 'S' :: b2 → b1 = []) := by
  intro l
  induction l with
  | nil => intro b h; simp [takeBlock] at h
  | cons c rest ih =>
    intro b h
    simp only [takeBlock] at h
    by_cases h1 : rest = []
    · rw [if_pos h1] at h
      cases h
      subst h1
      refine ⟨[], by simp, by simp, Or.inl rfl, ?_⟩
      intro b1 b2 heq
      have := congrArg List.length heq
      simp [List.length_append] at this
      omega
    · rw [if_neg h1] at h
      by_cases h2 : isHdr rest
      · rw [if_pos h2] at h
        cases h
        refine ⟨rest, rfl, by simp, Or.inr h2, ?_⟩
        intro b1 b2 heq
        have := congrArg List.length heq
        simp [List.length_append] at this
        omega
      · rw [if_neg h2] at h
        cases hr : takeBlock rest with
        | none => rw [hr] at h; simp at h
        | some b' =>
          rw [hr] at h
          simp only [Option.map_some', Option.some.injEq] at h
          subst h
          rcases ih b' hr with ⟨suff, hsplit, hne, hsuff, hmin⟩
          refine ⟨suff, by rw [hsplit]; rfl, by simp, hsuff, ?_⟩
          intro b1 b2 heq
          cases b1 with
          | nil => rfl
          | cons x b1' =>
            injection heq with hx hb
            have hb1' := hmin b1' b2 hb
            subst hb1'
            exfalso
            apply h2
            rw [hsplit]
            rw [show b' = '\n' :: '[' :: 'S' :: b2 from by simpa using hb]
            rfl

lemma isPrefixOf_eq_append : ∀ (p s : List Char), p.isPrefixOf s = true →
    s = p ++ s.drop p.length := by
  intro p
  induction p with
  | nil => intro s _; simp
  | cons a p' ih =>
    intro s h
    cases s with
    | nil => simp [List.isPrefixOf] at h
    | cons b s' =>
      simp only [List.isPrefixOf, Bool.and_eq_true] at h
      obtain ⟨hab, hps⟩ := h
      have hab' : a = b := beq_iff_eq.mp hab
      subst hab'
      simp only [List.length_cons, List.drop_succ_cons, List.cons_append,
        List.cons.injEq, true_and]
      exact ih s' hps

lemma matchAt_spec (n : Nat) (s b : List Char) (h : matchAt n s = some b) :
    ∃ mid suff, s = header n ++ (mid ++ '\n' :: (b ++ suff)) ∧
      mid.all (fun c => !(c == '\n')) = true ∧ b ≠ [] ∧
      (suff = [] ∨ isHdr suff = true) ∧
      (∀ b1 b2, b = b1 ++ '\n' :: '[' :: 'S' :: b2 → b1 = []) := by
  unfold matchAt at h
  by_cases hp : (header n).isPrefixOf s
  · rw [if_pos hp] at h
    have hs : s = header n ++ s.drop (header n).length :=
      isPrefixOf_eq_append _ _ hp
    cases hd : (s.drop (header n).length).dropWhile (fun c => !(c == '\n')) with
    | nil => rw [hd] at h; exact Option.noConfusion h
    | cons d rest =>
      have hdn : (fun c => !(c == '\n')) d = false :=
        dropWhile_head_false _ _ _ _ hd
      have hdn' : d = '\n' := by
        simpa using hdn
      subst hdn'
      rw [hd] at h
      replace h : takeBlock rest = some b := h
      rcases takeBlock_spec rest b h with ⟨suff, hsplit, hne, hsuff, hmin⟩
      refine ⟨(s.drop (header n).length).takeWhile (fun c => !(c == '\n')),
        suff, ?_, ?_, hne, hsuff, hmin⟩
      · conv_lhs => rw [hs]
        congr 1
        conv_lhs => rw [← List.takeWhile_append_dropWhile
          (fun c => !(c == '\n')) (s.drop (header n).length)]
        rw [hd, hsplit]
      · exact List.all_eq_true.mpr (fun c hc =>
          List.mem_takeWhile_imp (p := fun c => !(c == '\n')) hc)
  · rw [if_neg hp] at h
    exact Option.noConfusion h

lemma findBlock_spec (n : Nat) : ∀ (st b : List Char),
    findBlock n st = some b →
    ∃ pre mid suff,
      st = pre ++ header n ++ (mid ++ '\n' :: (b ++ suff)) ∧
      mid.all (fun c => !(c == '\n')) = true ∧ b ≠ [] ∧
      (suff = [] ∨ isHdr suff = true) ∧
      (∀ b1 b2, b = b1 ++ '\n' :: '[' :: 'S' :: b2 → b1 = []) := by
  intro st
  induction st with
  | nil => intro b h; simp [findBlock] at h
  | cons c rest ih =>
    intro b h
    simp only [findBlock] at h
    cases hm : matchAt n (c :: rest) with
    | some b' =>
      rw [hm] at h
      cases h
      rcases matchAt_spec n _ _ hm with ⟨mid, suff, hs, hall, hne, hsuff, hmin⟩
      exact ⟨[], mid, suff, by simpa using hs, hall, hne, hsuff, hmin⟩
    | none =>
      rw [hm] at h
      rcases ih b h with ⟨pre, mid, suff, hs, hall, hne, hsuff, hmin⟩
      refine ⟨c :: pre, mid, suff, ?_, hall, hne, hsuff, hmin⟩
      rw [List.cons_append, List.cons_append, ← hs]

/-! ## Claim C5: citation snippets -/

/-- Claim C5 (amended): when `_extract_snippet` locates a block for
label `n`, the block is the text following that label's header line
(`[S{n}]`, then the rest of its line, then a newline) up to but
excluding the next `\n[S` header or the end of `source_text` (never
containing an interior `\n[S` past its first character), and the snippet
is the trimmed block when that is at most 200 characters; when the
trimmed block is longer, the snippet is its first 200 characters plus a
three-character ellipsis (so its total length is 203, not at most 200);
in all such cases the snippet length is at most 203.  Every citation
produced by `_parse_citations` carries such a snippet for its label's
number. -/
theorem snippet_extraction (source_text : List Char) (n : Nat)
    (b : List Char) (h : findBlock n source_text = some b) :
    (∃ pre mid suff,
        source_text = pre ++ header n ++ (mid ++ '\n' :: (b ++ suff))
      ∧ mid.all (fun c => !(c == '\n')) = true
      ∧ b ≠ []
      ∧ (suff = [] ∨ isHdr suff = true)
      ∧ (∀ b1 b2, b = b1 ++ '\n' :: '[' :: 'S' :: b2 → b1 = []))
    ∧ extract_snippet source_text n 200
        = (if 200 < (strip b).length then (strip b).take 200 ++ "...".data
           else strip b)
    ∧ (extract_snippet source_text n 200).length ≤ 203
    ∧ ((strip b).length ≤ 200 → extract_snippet source_text n 200 = strip b)
    ∧ (∀ answer m c, c ∈ parse_citations answer source_text m →
        ∃ k, c.snippet = extract_snippet source_text k 200) := by
  have hsnip : extract_snippet source_text n 200
      = (if 200 < (strip b).length then (strip b).take 200 ++ "...".data
         else strip b) := by
    unfold extract_snippet
    rw [h]
  refine ⟨findBlock_spec n source_text b h, hsnip, ?_, ?_, ?_⟩
  · rw [hsnip]
    by_cases hlen : 200 < (strip b).length
    · rw [if_pos hlen]
      simp [List.length_append, List.length_take]
    · rw [if_neg hlen]
      omega
  · intro hle
    rw [hsnip, if_neg (by omega)]
  · intro answer m c hc
    unfold parse_citations at hc
    rcases List.mem_filterMap.mp hc with ⟨ds, _, hF⟩
    cases hl : m.lookup (digitsToNat ds) with
    | some page =>
      rw [hl] at hF
      cases hF
      exact ⟨digitsToNat ds, rfl⟩
    | none =>
      rw [hl] at hF
      cases hF

/-- Witness for C5 at a concrete input: in the source block
`[S1] (Page 3)\nParis.\n\n` the block located for label 1 is
`Paris.\n\n`, whose trimmed form `Paris.` (6 ≤ 200 characters) is the
snippet. -/
theorem snippet_extraction_witness :
    extract_snippet "[S1] (Page 3)\nParis.\n\n".data 1 200
      = strip "Paris.\n\n".data :=
  (snippet_extraction "[S1] (Page 3)\nParis.\n\n".data 1 "Paris.\n\n".data
    (by decide)).2.2.2.1 (by decide)

set_option maxRecDepth 4000 in
/-- Counterexample for C5 as stated: with a source block whose text is
201 `a` characters, the (single) citation produced for `[S1]` has a
snippet of length 203 — the first 200 characters plus the ellipsis —
which is not at most 200 characters. -/
theorem snippet_length_counterexample :
    (parse_citations "[S1]".data
        ("[S1] (Page 3)\n".data ++ List.replicate 201 'a') [(1, 3)]).map
      (fun c => c.snippet.length) = [203]
    ∧ ¬(203 ≤ 200) := by
  decide

/-! ## Claim C6: re-indexing an indexed document is rejected -/

/-- Claim C6: an index request on a document whose status is `indexed`
is rejected with an error and leaves the entire document state — status,
pages, chunks, page_count, chunk_count, indexed_at — untouched; on a
document whose status is `uploaded` or `failed` the request proceeds,
ending either in status `indexed` with a success response or in status
`failed` with an `Indexing failed` error. -/
theorem index_rejects_indexed (db : DocDB)
    (extract : Except (List Char) (List PageData))
    (pc cc fc : Except (List Char) Unit) (now : Nat) :
    (db.doc_status = Status.indexed →
      index_document db extract pc cc fc now
        = (db, Except.error "Document is already indexed".data))
    ∧ (db.doc_status = Status.uploaded ∨ db.doc_status = Status.failed →
        ((index_document db extract pc cc fc now).1.doc_status = Status.indexed ∧
          ∃ r, (index_document db extract pc cc fc now).2 = Except.ok r)
        ∨ ((index_document db extract pc cc fc now).1.doc_status = Status.failed ∧
          ∃ msg, (index_document db extract pc cc fc now).2
              = Except.error ("Indexing failed: ".data ++ msg))) := by
  constructor
  · intro h
    unfold index_document
    rw [if_pos h]
  · intro h
    have hne : ¬(db.doc_status = Status.indexed) := by
      rcases h with h | h <;> simp [h]
    unfold index_document
    rw [if_neg hne]
    cases extract with
    | error e => exact Or.inr ⟨rfl, e, rfl⟩
    | ok pages =>
      cases pc with
      | error e => exact Or.inr ⟨rfl, e, rfl⟩
      | ok u =>
        cases cc with
        | error e => exact Or.inr ⟨rfl, e, rfl⟩
        | ok u' =>
          cases fc with
          | error e => exact Or.inr ⟨rfl, e, rfl⟩
          | ok u'' => exact Or.inl ⟨rfl, _, rfl⟩

/-- Witness for C6 at concrete inputs: an `indexed` document's state and
data survive an index request unchanged and the request errors; an
`uploaded` document's request proceeds. -/
theorem index_rejects_indexed_witness :
    (index_document
        ⟨Status.indexed, some 1, some 2, some 5, [⟨1, "t".data, 1⟩], []⟩
        (Except.ok []) (Except.ok ()) (Except.ok ()) (Except.ok ()) 7
      = (⟨Status.indexed, some 1, some 2, some 5, [⟨1, "t".data, 1⟩], []⟩,
         Except.error "Document is already indexed".data))
    ∧ (((index_document
          ⟨Status.uploaded, none, none, none, [], []⟩
          (Except.ok []) (Except.ok ()) (Except.ok ()) (Except.ok ()) 7).1.doc_status
            = Status.indexed ∧
        ∃ r, (index_document
          ⟨Status.uploaded, none, none, none, [], []⟩
          (Except.ok []) (Except.ok ()) (Except.ok ()) (Except.ok ()) 7).2
            = Except.ok r)
      ∨ ((index_document
          ⟨Status.uploaded, none, none, none, [], []⟩
          (Except.ok []) (Except.ok ()) (Except.ok ()) (Except.ok ()) 7).1.doc_status
            = Status.failed ∧
        ∃ msg, (index_document
          ⟨Status.uploaded, none, none, none, [], []⟩
          (Except.ok []) (Except.ok ()) (Except.ok ()) (Except.ok ()) 7).2
            = Except.error ("Indexing failed: ".data ++ msg))) := by
  constructor
  · exact (index_rejects_indexed
      ⟨Status.indexed, some 1, some 2, some 5, [⟨1, "t".data, 1⟩], []⟩
      (Except.ok []) (Except.ok ()) (Except.ok ()) (Except.ok ()) 7).1 rfl
  · exact (index_rejects_indexed
      ⟨Status.uploaded, none, none, none, [], []⟩
      (Except.ok []) (Except.ok ()) (Except.ok ()) (Except.ok ()) 7).2
      (Or.inl rfl)

/-! ## Claim C7: indexing failures -/

/-- Claim C7: any failure during extraction or any of the three
persistence commits while indexing a non-`indexed` document leaves the
document in status `failed` with `indexed_at` (and the count fields)
unchanged and surfaces `Indexing failed: {error}` to the caller; pages
(and chunks) committed before the failing step remain committed, and
nothing staged at or after it is persisted. -/
theorem index_failure_marks_failed (db : DocDB)
    (pc cc fc : Except (List Char) Unit) (now : Nat)
    (hne : db.doc_status ≠ Status.indexed) :
    (∀ e, index_document db (Except.error e) pc cc fc now
        = ({ db with doc_status := Status.failed },
           Except.error ("Indexing failed: ".data ++ e)))
    ∧ (∀ pages e, pc = Except.error e →
        index_document db (Except.ok pages) pc cc fc now
          = ({ db with doc_status := Status.failed },
             Except.error ("Indexing failed: ".data ++ e)))
    ∧ (∀ pages e, pc = Except.ok () → cc = Except.error e →
        index_document db (Except.ok pages) pc cc fc now
          = ({ db with doc_status := Status.failed,
                       pages := db.pages ++ pages },
             Except.error ("Indexing failed: ".data ++ e)))
    ∧ (∀ pages e, pc = Except.ok () → cc = Except.ok () →
        fc = Except.error e →
        index_document db (Except.ok pages) pc cc fc now
          = ({ db with doc_status := Status.failed,
                       pages := db.pages ++ pages,
                       chunks := db.chunks ++ chunk_pages pages 500 50 },
             Except.error ("Indexing failed: ".data ++ e))) := by
  refine ⟨?_, ?_, ?_, ?_⟩
  · intro e
    unfold index_document
    rw [if_neg hne]
  · intro pages e hpc
    subst hpc
    unfold index_document
    rw [if_neg hne]
  · intro pages e hpc hcc
    subst hpc; subst hcc
    unfold index_document
    rw [if_neg hne]
  · intro pages e hpc hcc hfc
    subst hpc; subst hcc; subst hfc
    unfold index_document
    rw [if_neg hne]

/-- Witness for C7 at a concrete input: a chunk-persistence failure on a
one-page document leaves the committed page in place, no chunks, status
`failed`, `indexed_at` still unset, and the error surfaced. -/
theorem index_failure_marks_failed_witness :
    index_document ⟨Status.uploaded, none, none, none, [], []⟩
        (Except.ok [⟨1, "Hi.".data, 3⟩]) (Except.ok ())
        (Except.error "disk full".data) (Except.ok ()) 7
      = (⟨Status.failed, none, none, none, [⟨1, "Hi.".data, 3⟩], []⟩,
         Except.error ("Indexing failed: ".data ++ "disk full".data)) := by
  have h := (index_failure_marks_failed
      ⟨Status.uploaded, none, none, none, [], []⟩
      (Except.ok ()) (Except.error "disk full".data) (Except.ok ()) 7
      (by simp)).2.2.1 [⟨1, "Hi.".data, 3⟩] "disk full".data rfl rfl
  rw [h]
  rfl

/-! ## Claim C8: empty retrieval on an ask request -/

/-- Claim C8 (code behaviour at the failing input): on an indexed
document with zero stored chunks, retrieval returns empty and
`ask_question` raises `HTTPException(404, "No relevant content found in
the document")` — but inside its own `try` block, whose
`except Exception` clause catches the `HTTPException` (a subclass of
`Exception`) and re-raises it as the generic
`HTTPException(500, "Failed to process question: 404: No relevant
content found in the document")`.  The caller therefore receives the
generic 500 failure, not the 404 no-relevant-content error the claim
(and the code's own `raise`) intend; no `Message` rows are created. -/
theorem ask_empty_retrieval_wrapped_500 :
    ask_question ⟨[], []⟩ Status.indexed 7 none "what".data []
        (Except.ok "x".data) (Except.ok ()) 1 0
      = (⟨[⟨1, 7, "what".data, 0⟩], []⟩,
         Except.error (AskError.internal
           "Failed to process question: 404: No relevant content found in the document".data))
    ∧ (ask_question ⟨[], []⟩ Status.indexed 7 none "what".data []
        (Except.ok "x".data) (Except.ok ()) 1 0).1.msgs = [] := by
  exact ⟨rfl, rfl⟩

/-! ## Claim C9: message persistence is atomic -/

/-- Claim C9: once conversation resolution has succeeded and generation
has produced an answer, a failure of the commit that persists the
question/answer pair rolls the pair back entirely — the message table is
exactly what it was before the request (in particular the user message
is never committed without its assistant message) and the error is
surfaced; on success the two messages are appended together with the
citations payload and the conversation's updated timestamp, as one
commit. -/
theorem ask_persistence_atomic (db : ChatDB) (document_id : Nat)
    (conversation_id : Option Int) (question : List Char)
    (chunks : List StoredChunk) (answer : List Char)
    (newConvId : Nat) (now : Nat)
    (conv : ConversationRow) (db1 : ChatDB)
    (hconv : resolveConv db document_id conversation_id question newConvId now
        = Except.ok (conv, db1))
    (hrel : keyword_search question chunks 5 ≠ []) :
    db1.msgs = db.msgs
    ∧ (∀ e, ask_question db Status.indexed document_id conversation_id question
          chunks (Except.ok answer) (Except.error e) newConvId now
        = (db1, Except.error (AskError.internal
            ("Failed to process question: ".data ++ e))))
    ∧ (∃ cjson,
        let user_message : MessageRow := ⟨conv.id, "user".data, question, none⟩
        let assistant_message : MessageRow :=
          ⟨conv.id, "assistant".data, answer, some cjson⟩
        let db2 : ChatDB :=
          { db1 with
            msgs := db1.msgs ++ [user_message, assistant_message],
            convs := db1.convs.map (fun cv =>
              if cv.id == conv.id then { cv with updated_at := now } else cv) }
        ask_question db Status.indexed document_id conversation_id question
            chunks (Except.ok answer) (Except.ok ()) newConvId now
          = (db2, Except.ok ⟨answer, cjson, conv.id, db2.msgs.length⟩)
        ∧ db2.msgs.length = db1.msgs.length + 2) := by
  have hmsgs : db1.msgs = db.msgs := by
    unfold resolveConv at hconv
    split at hconv
    · split at hconv
      · split at hconv
        · simp only [Except.ok.injEq, Prod.mk.injEq] at hconv
          rw [← hconv.2]
        · exact Except.noConfusion hconv
      · exact Except.noConfusion hconv
    · simp only [Except.ok.injEq, Prod.mk.injEq] at hconv
      rw [← hconv.2]
  refine ⟨hmsgs, ?_, ?_⟩
  · intro e
    unfold ask_question
    rw [if_neg (by simp)]
    simp only [hconv]
    rw [if_neg hrel]
    rfl
  · refine ⟨(parse_citations answer
        (format_sources_for_llm (keyword_search question chunks 5)).1
        (format_sources_for_llm (keyword_search question chunks 5)).2).map
      (fun c => ⟨c.page, c.snippet,
        ((keyword_search question chunks 5).get?
            (digitsToNat (c.source_label.drop 1) - 1)).map
          (fun rc => rc.chunk_id)⟩), ?_, by simp⟩
    unfold ask_question
    rw [if_neg (by simp)]
    simp only [hconv]
    rw [if_neg hrel]

/-- Witness for C9 at a concrete input: with one relevant chunk and a
successful generation, a failing message commit leaves the message
table empty and surfaces the error. -/
theorem ask_persistence_atomic_witness :
    ask_question ⟨[], []⟩ Status.indexed 7 none "hello".data
        [⟨1, 2, "hello world".data, 2⟩] (Except.ok "hi [S1]".data)
        (Except.error "db down".data) 1 5
      = (⟨[⟨1, 7, "hello".data, 5⟩], []⟩,
         Except.error (AskError.internal
           ("Failed to process question: ".data ++ "db down".data))) :=
  (ask_persistence_atomic ⟨[], []⟩ 7 none "hello".data
      [⟨1, 2, "hello world".data, 2⟩] "hi [S1]".data 1 5
      ⟨1, 7, "hello".data, 5⟩ ⟨[⟨1, 7, "hello".data, 5⟩], []⟩
      rfl (by decide)).2.1 "db down".data
